import Mathlib

/-!
A verification development for the `zuora` client library
(`zuora/client.py`).  The Python source is shallowly embedded:

* Python strings are lists of Unicode code points (`Str := List Nat`);
  the regular-expression character classes `[A-Z]`, `[a-z]`, `[0-9]`
  used by the source are ASCII ranges on those code points.
* Python dictionaries are insertion-ordered association lists
  (`dlookup` / `dinsert`); CPython iterates them in a deterministic
  order, and every property below that depends on iteration order is
  stated relative to that list order.
* Fallible Python code (KeyError, AttributeError, IndexError, and the
  TypeError raised by `str + int`) is modelled with `Except`.
* Python 2 semantics are used throughout, since the source imports
  `suds` and mentions `unicode` / `long`: in particular mixed-type
  comparison orders every `int` before every `str`, and `sorted` is a
  stable sort.
* External collaborators (the SOAP transport, `re.match`, `float`)
  enter as parameters or as small explicitly documented models.
-/

set_option maxHeartbeats 1000000

namespace PyZuora

/-- A Python string, modelled as its list of Unicode code points. -/
abbrev Str := List Nat

/-- Code points of a Lean string literal; used to write down the concrete
Python strings appearing in the source and in test inputs. -/
def codes (s : String) : Str := s.data.map Char.toNat

/-- Membership test for the regex character class `[A-Z]` (ASCII). -/
def isUpperCode (n : Nat) : Bool := 65 ≤ n && n ≤ 90

/-- Membership test for the regex character class `[a-z]` (ASCII). -/
def isLowerCode (n : Nat) : Bool := 97 ≤ n && n ≤ 122

/-- Membership test for the regex character class `[0-9]` (ASCII). -/
def isDigitCode (n : Nat) : Bool := 48 ≤ n && n ≤ 57

/-- Python `str.lower()` on one code point, restricted to ASCII letters
(every key and value the library manipulates is ASCII). -/
def lowerCode (n : Nat) : Nat := if isUpperCode n then n + 32 else n

/-- Python `str.lower()` on a whole string. -/
def lowerStr (s : Str) : Str := s.map lowerCode

/-!
## `convert_camel` (client.py lines 1964-1970)

    first_cap_re = re.compile('(.)([A-Z][a-z]+)')
    all_cap_re = re.compile('([a-z0-9])([A-Z])')

    def convert_camel(name):
        s1 = first_cap_re.sub(r'\1_\2', name)
        return all_cap_re.sub(r'\1_\2', s1).lower()

`re.sub` scans left to right, takes non-overlapping matches, `[a-z]+` is
greedy, and the scan resumes immediately after each replaced match.
`firstCapGo` realises exactly that scan; the extra `Nat` argument is
recursion fuel, initialised to the length of the input, which bounds the
number of scan steps because every step consumes at least one character.
-/

/-- The scan of `first_cap_re.sub(r'\1_\2', s)`: at the current position
try to match `(.)([A-Z][a-z]+)` (any character, an ASCII capital, then a
maximal nonempty run of ASCII lowercase); on a match emit the two groups
separated by `_` (code point 95) and resume after the match, otherwise
emit one character and advance by one. -/
def firstCapGo : Nat → Str → Str
  | 0, l => l
  | fuel + 1, c1 :: c2 :: c3 :: rest =>
    if isUpperCode c2 && isLowerCode c3 then
      c1 :: 95 :: c2 :: c3 ::
        (rest.takeWhile isLowerCode ++ firstCapGo fuel (rest.dropWhile isLowerCode))
    else
      c1 :: firstCapGo fuel (c2 :: c3 :: rest)
  | _ + 1, l => l

/-- `first_cap_re.sub(r'\1_\2', s)`; the fuel `s.length` is enough for
the whole scan since every step of `firstCapGo` consumes at least one
input character. -/
def firstCapSub (s : Str) : Str := firstCapGo s.length s

/-- `all_cap_re.sub(r'\1_\2', s)`: insert `_` between an ASCII
lowercase-or-digit and an immediately following ASCII capital; matches
are non-overlapping and consume both characters. -/
def allCapSub : Str → Str
  | c1 :: c2 :: rest =>
    if (isLowerCode c1 || isDigitCode c1) && isUpperCode c2 then
      c1 :: 95 :: c2 :: allCapSub rest
    else
      c1 :: allCapSub (c2 :: rest)
  | l => l

/-- `convert_camel` from the source: the two regex passes followed by
`str.lower()`. -/
def convert_camel (name : Str) : Str := lowerStr (allCapSub (firstCapSub name))

/-- Python `key.replace("__c", "")` (used by every
`get_camel_converted_*` helper): remove every non-overlapping occurrence
of the three code points `_`, `_`, `c`, scanning left to right. -/
def stripCustomField : Str → Str
  | 95 :: 95 :: 99 :: rest => stripCustomField rest
  | c :: rest => c :: stripCustomField rest
  | [] => []

/-- Decides whether `__c` occurs as a substring at a scan position that
`stripCustomField` would remove (equivalently: whether it occurs at
all). -/
def hasCustomField : Str → Bool
  | 95 :: 95 :: 99 :: _ => true
  | _ :: rest => hasCustomField rest
  | [] => false

/-- The attribute-key normalization performed by every
`get_camel_converted_*` helper (e.g. client.py lines 1200-1206):
`convert_camel(attr[0].replace("__c", ""))`. -/
def normalizeKey (k : Str) : Str := convert_camel (stripCustomField k)

/-- Modelled from the spec (claim C6 wording): strip one custom-field
marker `__c` from the end of the key only, leaving interior occurrences
in place.  This is the spec-side counterpart compared against the
source's `stripCustomField`. -/
def stripTrailingCustomField (k : Str) : Str :=
  if k.length ≥ 3 ∧ List.drop (k.length - 3) k = [95, 95, 99] then
    List.take (k.length - 3) k
  else k

/-- Modelled from the spec (claim C6 wording): key normalization as the
claim states it, with only a trailing marker stripped before the camel
conversion. -/
def specNormalizeKey (k : Str) : Str := convert_camel (stripTrailingCustomField k)

/-! ### Basic lemmas about the normalization pipeline -/

theorem lowerCode_not_upper (n : Nat) : isUpperCode (lowerCode n) = false := by
  unfold lowerCode
  split
  · next h =>
    unfold isUpperCode at h ⊢
    simp only [Bool.and_eq_true, decide_eq_true_eq] at h
    simp only [Bool.and_eq_false_iff, decide_eq_false_iff_not]
    omega
  · next h => simpa using h

theorem lowerCode_eq_self (n : Nat) (h : isUpperCode n = false) : lowerCode n = n := by
  unfold lowerCode
  simp [h]

theorem lowerStr_not_upper (s : Str) : ∀ c ∈ lowerStr s, isUpperCode c = false := by
  intro c hc
  unfold lowerStr at hc
  obtain ⟨a, _, rfl⟩ := List.mem_map.mp hc
  exact lowerCode_not_upper a

theorem convert_camel_not_upper (s : Str) :
    ∀ c ∈ convert_camel s, isUpperCode c = false := by
  intro c hc
  exact lowerStr_not_upper _ c hc

theorem normalizeKey_not_upper (k : Str) :
    ∀ c ∈ normalizeKey k, isUpperCode c = false := by
  intro c hc
  exact convert_camel_not_upper _ c hc

theorem firstCapGo_no_upper (fuel : Nat) :
    ∀ l : Str, (∀ c ∈ l, isUpperCode c = false) → firstCapGo fuel l = l := by
  induction fuel with
  | zero => intro l _; rfl
  | succ fuel ih =>
    intro l h
    match l with
    | [] => rfl
    | [c] => rfl
    | [c1, c2] => rfl
    | c1 :: c2 :: c3 :: rest =>
      have h2 : isUpperCode c2 = false := h c2 (by simp)
      have ht := ih (c2 :: c3 :: rest) (fun c hc => h c (List.mem_cons_of_mem _ hc))
      simp [firstCapGo, h2, ht]

theorem firstCapSub_no_upper (l : Str) (h : ∀ c ∈ l, isUpperCode c = false) :
    firstCapSub l = l := firstCapGo_no_upper l.length l h

theorem allCapSub_no_upper :
    ∀ l : Str, (∀ c ∈ l, isUpperCode c = false) → allCapSub l = l := by
  intro l
  induction l with
  | nil => intro _; rfl
  | cons c1 t ih =>
    intro h
    match t with
    | [] => rfl
    | c2 :: rest =>
      have h2 : isUpperCode c2 = false := h c2 (by simp)
      have ht := ih (fun c hc => h c (List.mem_cons_of_mem _ hc))
      simp [allCapSub, h2, ht]

theorem lowerStr_no_upper (l : Str) (h : ∀ c ∈ l, isUpperCode c = false) :
    lowerStr l = l := by
  unfold lowerStr
  rw [List.map_congr_left (fun c hc => lowerCode_eq_self c (h c hc))]
  exact List.map_id _

theorem convert_camel_idempotent (s : Str) :
    convert_camel (convert_camel s) = convert_camel s := by
  have h := convert_camel_not_upper s
  unfold convert_camel at h ⊢
  rw [firstCapSub_no_upper _ h, allCapSub_no_upper _ h, lowerStr_no_upper _ h]

theorem stripCustomField_of_not_hasCustomField (l : Str)
    (h : hasCustomField l = false) : stripCustomField l = l := by
  induction l using stripCustomField.induct with
  | case1 rest ih => simp [hasCustomField] at h
  | case2 c rest hne ih =>
    have hs : stripCustomField (c :: rest) = c :: stripCustomField rest := by
      rw [stripCustomField.eq_def]
      split
      · next r heq =>
        injection heq with h1 h2
        exact absurd h2 (fun hh => hne r h1 hh)
      · next c2 r2 hne2 heq =>
        injection heq with h1 h2
        subst h1; subst h2; rfl
      · next heq => exact absurd heq (by simp)
    have hh : hasCustomField (c :: rest) = hasCustomField rest := by
      rw [hasCustomField.eq_def]
      split
      · next r heq =>
        injection heq with h1 h2
        exact absurd h2 (fun hhh => hne r h1 hhh)
      · next c2 r2 hne2 heq =>
        injection heq with h1 h2
        subst h2; rfl
      · next heq => exact absurd heq (by simp)
    rw [hs, ih (hh ▸ h)]
  | case3 => rfl

theorem normalizeKey_idempotent_of_no_marker (k : Str)
    (h : hasCustomField (normalizeKey k) = false) :
    normalizeKey (normalizeKey k) = normalizeKey k := by
  unfold normalizeKey at h ⊢
  rw [stripCustomField_of_not_hasCustomField _ h]
  exact convert_camel_idempotent _
/-!
## Python dictionaries

A CPython dictionary is modelled as an association list with unique
keys, kept in a deterministic iteration order; assigning to an existing
key keeps its position, assigning a new key appends it.  All order
dependent properties below are stated relative to this list order.
-/

/-- Dictionary lookup: first entry with the given key. -/
def dlookup (k : Str) : List (Str × α) → Option α
  | [] => none
  | (k2, v) :: t => if k2 = k then some v else dlookup k t

/-- Dictionary assignment `d[k] = v`: overwrite in place, or append. -/
def dinsert (k : Str) (v : α) : List (Str × α) → List (Str × α)
  | [] => [(k, v)]
  | (k2, v2) :: t => if k2 = k then (k, v) :: t else (k2, v2) :: dinsert k v t

/-- `d.get(k, dflt)`. -/
def dget (k : Str) (dflt : α) (d : List (Str × α)) : α := (dlookup k d).getD dflt

theorem dlookup_dinsert (k k2 : Str) (v : α) (d : List (Str × α)) :
    dlookup k2 (dinsert k v d) = if k = k2 then some v else dlookup k2 d := by
  induction d with
  | nil =>
    by_cases h : k = k2 <;> simp [dinsert, dlookup, h]
  | cons p t ih =>
    obtain ⟨k3, v3⟩ := p
    by_cases h3 : k3 = k
    · subst h3
      by_cases h : k3 = k2 <;> simp [dinsert, dlookup, h]
    · by_cases h : k3 = k2
      · subst h
        have hk : ¬ k = k3 := fun hh => h3 hh.symm
        simp [dinsert, dlookup, h3, hk, ih]
      · simp [dinsert, dlookup, h3, h, ih]

theorem dlookup_mem (k : Str) (v : α) (d : List (Str × α))
    (h : dlookup k d = some v) : (k, v) ∈ d := by
  induction d with
  | nil => simp [dlookup] at h
  | cons p t ih =>
    obtain ⟨k2, v2⟩ := p
    by_cases h2 : k2 = k
    · subst h2
      simp [dlookup] at h
      simp [h]
    · simp [dlookup, h2] at h
      exact List.mem_cons_of_mem _ (ih h)

theorem mem_dinsert (k : Str) (v : α) (d : List (Str × α)) (p : Str × α)
    (h : p ∈ dinsert k v d) : p = (k, v) ∨ p ∈ d := by
  induction d with
  | nil => simp [dinsert] at h; simp [h]
  | cons q t ih =>
    obtain ⟨k2, v2⟩ := q
    by_cases h2 : k2 = k
    · subst h2
      simp [dinsert] at h
      rcases h with h | h
      · left; simp [h]
      · right; exact List.mem_cons_of_mem _ h
    · simp only [dinsert, h2, if_false] at h
      rcases List.mem_cons.mp h with h | h
      · right; simp [h]
      · rcases ih h with h | h
        · left; exact h
        · right; exact List.mem_cons_of_mem _ h

/-!
## Python 2 values and ordering

The camel-converted dictionaries store every attribute as a string
(`str(attr[1])`), but `match_product_rate_plans` also stores the integer
`0`/`999` defaults, so scores and sort keys live in the sum type
`PyVal`.  Python 2 compares an `int` with a `str` by type name, so every
int orders strictly before every str; two strs compare lexicographically
by code point; `sorted` (with or without `reverse=True`) is stable.
-/

inductive PyVal where
  | int : Int → PyVal
  | str : Str → PyVal
deriving DecidableEq, Repr

/-- Python 2 `<=` on two strings: lexicographic on code points. -/
def strLE : Str → Str → Bool
  | [], _ => true
  | _ :: _, [] => false
  | a :: s1, b :: s2 => if a < b then true else if b < a then false else strLE s1 s2

/-- Python 2 `<=` on `PyVal`: ints numerically, strs lexicographically,
and every int before every str (CPython 2 cross-type ordering). -/
def pyLE : PyVal → PyVal → Bool
  | .int a, .int b => a ≤ b
  | .int _, .str _ => true
  | .str _, .int _ => false
  | .str a, .str b => strLE a b

theorem strLE_total (s t : Str) : strLE s t = true ∨ strLE t s = true := by
  induction s generalizing t with
  | nil => left; rfl
  | cons a s1 ih =>
    match t with
    | [] => right; rfl
    | b :: t1 =>
      by_cases hab : a < b
      · left; simp [strLE, hab]
      · by_cases hba : b < a
        · right; simp [strLE, hba]
        · have hh : a = b := Nat.le_antisymm (Nat.le_of_not_lt hba) (Nat.le_of_not_lt hab)
          subst hh
          rcases ih t1 with h | h
          · left; simp [strLE, h]
          · right; simp [strLE, h]

theorem strLE_trans (s t u : Str) (h1 : strLE s t = true) (h2 : strLE t u = true) :
    strLE s u = true := by
  induction s generalizing t u with
  | nil => rfl
  | cons a s1 ih =>
    match t, u with
    | [], _ => simp [strLE] at h1
    | _ :: _, [] => simp [strLE] at h2
    | b :: t1, c :: u1 =>
      simp only [strLE] at h1 h2 ⊢
      rcases Nat.lt_trichotomy b c with hbc | hbc | hbc
      · rcases Nat.lt_trichotomy a b with hab | hab | hab
        · simp [Nat.lt_trans hab hbc]
        · subst hab; simp [hbc]
        · rw [if_neg (by omega), if_pos hab] at h1
          exact absurd h1 (by simp)
      · subst hbc
        rw [if_neg (Nat.lt_irrefl b), if_neg (Nat.lt_irrefl b)] at h2
        rcases Nat.lt_trichotomy a b with hab | hab | hab
        · simp [hab]
        · subst hab
          rw [if_neg (Nat.lt_irrefl a), if_neg (Nat.lt_irrefl a)] at h1 ⊢
          exact ih t1 u1 h1 h2
        · rw [if_neg (by omega), if_pos hab] at h1
          exact absurd h1 (by simp)
      · rw [if_neg (by omega), if_pos hbc] at h2
        exact absurd h2 (by simp)

theorem pyLE_total (a b : PyVal) : pyLE a b = true ∨ pyLE b a = true := by
  match a, b with
  | .int x, .int y =>
    rcases Int.le_total x y with h | h
    · left; simpa [pyLE] using h
    · right; simpa [pyLE] using h
  | .int _, .str _ => left; rfl
  | .str _, .int _ => right; rfl
  | .str s, .str t => exact strLE_total s t

theorem pyLE_trans (a b c : PyVal) (h1 : pyLE a b = true) (h2 : pyLE b c = true) :
    pyLE a c = true := by
  match a, b, c with
  | .int x, .int y, .int z =>
    simp only [pyLE, decide_eq_true_eq] at h1 h2 ⊢
    omega
  | .int _, _, .str _ => rfl
  | .int _, .str _, .int _ => simp [pyLE] at h2
  | .str _, .int _, _ => simp [pyLE] at h1
  | .str _, .str _, .int _ => simp [pyLE] at h2
  | .str s, .str t, .str u => exact strLE_trans s t u h1 h2

/-!
## Python `sorted`

`sorted(l, key=k)` and `sorted(l, key=k, reverse=True)` are stable: list
elements whose keys compare equal keep their relative order, also with
`reverse=True`.  Any stable sort is extensionally unique, so the builtin
is embedded as an insertion sort in which a newly processed element is
placed after every already-placed element that is `le` it.  For the
ascending call `le x y` is "key of x <= key of y"; for the descending
call it is "key of y <= key of x".
-/

/-- Insert `a` after every element `le` it (so after equal keys),
before the first element strictly greater. -/
def stableInsert (le : α → α → Bool) (a : α) : List α → List α
  | [] => [a]
  | h :: t => if le h a then h :: stableInsert le a t else a :: h :: t

/-- Python `sorted` with comparison `le`, processing the list left to
right. -/
def pySorted (le : α → α → Bool) (l : List α) : List α :=
  l.foldl (fun acc a => stableInsert le a acc) []

theorem mem_stableInsert (le : α → α → Bool) (a x : α) (l : List α)
    (h : x ∈ stableInsert le a l) : x = a ∨ x ∈ l := by
  induction l with
  | nil => simp [stableInsert] at h; simp [h]
  | cons b t ih =>
    by_cases hba : le b a = true
    · simp only [stableInsert, hba, if_true] at h
      rcases List.mem_cons.mp h with h | h
      · right; simp [h]
      · rcases ih h with h | h
        · left; exact h
        · right; exact List.mem_cons_of_mem _ h
    · simp only [stableInsert, hba, if_false] at h
      rcases List.mem_cons.mp h with h | h
      · left; exact h
      · right; exact h

theorem pairwise_stableInsert (le : α → α → Bool)
    (htotal : ∀ x y, le x y = true ∨ le y x = true)
    (htrans : ∀ x y z, le x y = true → le y z = true → le x z = true)
    (a : α) (l : List α)
    (h : l.Pairwise (fun x y => le x y = true)) :
    (stableInsert le a l).Pairwise (fun x y => le x y = true) := by
  induction l with
  | nil => simp [stableInsert]
  | cons b t ih =>
    rcases List.pairwise_cons.mp h with ⟨hb, ht⟩
    by_cases hba : le b a = true
    · simp only [stableInsert, hba, if_true]
      refine List.pairwise_cons.mpr ⟨?_, ih ht⟩
      intro x hx
      rcases mem_stableInsert le a x t hx with hx | hx
      · subst hx; exact hba
      · exact hb x hx
    · simp only [stableInsert, hba, if_false]
      have hab : le a b = true := by
        rcases htotal a b with hh | hh
        · exact hh
        · exact absurd hh hba
      refine List.pairwise_cons.mpr ⟨?_, h⟩
      intro x hx
      rcases List.mem_cons.mp hx with hx | hx
      · subst hx; exact hab
      · exact htrans a b x hab (hb x hx)

theorem pairwise_pySorted (le : α → α → Bool)
    (htotal : ∀ x y, le x y = true ∨ le y x = true)
    (htrans : ∀ x y z, le x y = true → le y z = true → le x z = true)
    (l : List α) :
    (pySorted le l).Pairwise (fun x y => le x y = true) := by
  suffices h : ∀ acc : List α, acc.Pairwise (fun x y => le x y = true) →
      (l.foldl (fun acc a => stableInsert le a acc) acc).Pairwise
        (fun x y => le x y = true) by
    exact h [] (by simp)
  induction l with
  | nil => intro acc hacc; simpa using hacc
  | cons a t ih =>
    intro acc hacc
    exact ih _ (pairwise_stableInsert le htotal htrans a acc hacc)

/-- Elements whose key is equivalent to a fixed element keep their
relative order through `stableInsert`: the freshly inserted element
always lands after the existing equivalent ones. -/
theorem filter_stableInsert (le : α → α → Bool)
    (htrans : ∀ x y z, le x y = true → le y z = true → le x z = true)
    (a x : α) (l : List α)
    (hsorted : l.Pairwise (fun p q => le p q = true)) :
    (stableInsert le a l).filter (fun y => le y x && le x y) =
      l.filter (fun y => le y x && le x y) ++
        (if le a x && le x a then [a] else []) := by
  induction l with
  | nil => by_cases h : le a x && le x a <;> simp [stableInsert, List.filter, h]
  | cons b t ih =>
    rcases List.pairwise_cons.mp hsorted with ⟨hb, ht⟩
    by_cases hba : le b a = true
    · simp only [stableInsert, hba, if_true]
      rw [List.filter_cons, List.filter_cons, ih ht]
      by_cases hbx : (le b x && le x b) = true <;> simp [hbx]
    · have hstep : stableInsert le a (b :: t) = a :: b :: t := by
        simp [stableInsert, hba]
      rw [hstep]
      by_cases hax : (le a x && le x a) = true
      · -- a is equivalent to x; no element of b :: t can be, since b > a
        rcases Bool.and_eq_true _ _ |>.mp hax with ⟨hax1, hxa⟩
        have hnone : ∀ y ∈ b :: t, (le y x && le x y) = false := by
          intro y hy
          rcases List.mem_cons.mp hy with hy | hy
          · subst hy
            by_cases hyx : le y x = true
            · have : le y a = true := htrans y x a hyx hxa
              exact absurd this hba
            · simp [Bool.eq_false_iff, hyx]
          · by_cases hyx : le y x = true
            · have hya : le y a = true := htrans y x a hyx hxa
              have hby : le b y = true := hb y hy
              have : le b a = true := htrans b y a hby hya
              exact absurd this hba
            · simp [Bool.eq_false_iff, hyx]
        have hfilter : List.filter (fun y => le y x && le x y) (b :: t) = [] :=
          List.filter_eq_nil_iff.mpr (fun y hy => by simp [hnone y hy])
        rw [List.filter_cons, hfilter]
        simp [hax]
      · rw [List.filter_cons]
        simp [hax]

/-- Stability of the embedded `sorted`: for every reference element `x`,
the elements key-equivalent to `x` appear in the sorted output in their
original input order. -/
theorem filter_pySorted (le : α → α → Bool)
    (htotal : ∀ p q, le p q = true ∨ le q p = true)
    (htrans : ∀ p q r, le p q = true → le q r = true → le p r = true)
    (x : α) (l : List α) :
    (pySorted le l).filter (fun y => le y x && le x y) =
      l.filter (fun y => le y x && le x y) := by
  suffices h : ∀ acc : List α, acc.Pairwise (fun p q => le p q = true) →
      (l.foldl (fun acc a => stableInsert le a acc) acc).filter
          (fun y => le y x && le x y) =
        acc.filter (fun y => le y x && le x y) ++
          l.filter (fun y => le y x && le x y) by
    simpa using h [] (by simp)
  induction l with
  | nil => intro acc _; simp
  | cons a t ih =>
    intro acc hacc
    simp only [List.foldl_cons, List.filter_cons]
    rw [ih _ (pairwise_stableInsert le htotal htrans a acc hacc),
      filter_stableInsert le htrans a x acc hacc]
    by_cases hax : (le a x && le x a) = true <;> simp [hax]

/-!
## The rate-plan matching engine
(`match_product_rate_plans`, client.py lines 1294-1404, with the
`get_camel_converted_*` grouping helpers, lines 1192-1292)

The four remote fetches (products by short code, currently effective
rate plans for those products, charges for those plan ids, tiers for
those charge ids) are external queries; the four fetched batches arrive
here as lists of raw records.  A raw record is its ordered field list
`(CamelCaseName, value-as-string)`; `rec.Field` access is `dlookup`,
raising `AttributeError` (modelled `Except.error`) when absent.
`re.match(re.compile(pattern, re.IGNORECASE), subject)` is an external
collaborator and is passed in as the boolean oracle `rmatch pattern
subject`.
-/

deriving instance DecidableEq for Except

/-- A raw suds record and a camel-converted dictionary share the same
representation: an insertion-ordered association list of string pairs. -/
abbrev Attrs := List (Str × Str)

/-- Mandatory lookup: a Python attribute access or `d[k]` indexing,
whose failure (AttributeError / KeyError) aborts the computation. -/
def need : Option α → Except Unit α
  | some a => .ok a
  | none => .error ()

/-- The per-record normalization loop shared by all
`get_camel_converted_*` helpers: `dict[convert_camel(attr[0]
.replace("__c", ""))] = str(attr[1])` over the record's fields. -/
def normalizeAttrs (r : Attrs) : Attrs :=
  r.foldl (fun d kv => dinsert (normalizeKey kv.1) kv.2 d) []

def rawIdKey : Str := codes "Id"
def rawProductIdKey : Str := codes "ProductId"
def rawProductRatePlanIdKey : Str := codes "ProductRatePlanId"
def rawProductRatePlanChargeIdKey : Str := codes "ProductRatePlanChargeId"
def idKey : Str := codes "id"
def priorityKey : Str := codes "priority"
def sortOrderKey : Str := codes "sort_order"
def chargeModelKey : Str := codes "charge_model"
def chargeTypeKey : Str := codes "charge_type"
def isOveragePriceKey : Str := codes "is_overage_price"
def priceKey : Str := codes "price"

/-- One step of the `get_camel_converted_products` loop:
`product_dict[p.Id] = {normalized attributes}`. -/
def groupProductsStep (d : List (Str × Attrs)) (r : Attrs) :
    Except Unit (List (Str × Attrs)) := do
  let pid ← need (dlookup rawIdKey r)
  pure (dinsert pid (normalizeAttrs r) d)

/-- `get_camel_converted_products` over the fetched product records. -/
def groupProducts (recs : List Attrs) : Except Unit (List (Str × Attrs)) :=
  recs.foldlM groupProductsStep []

/-- One step of the two-level grouping loops:
`d[rec.Parent] = d.get(rec.Parent, {}); d[rec.Parent][rec.Id] =
{normalized attributes}`. -/
def groupStep (parentKey : Str) (d : List (Str × List (Str × Attrs)))
    (r : Attrs) : Except Unit (List (Str × List (Str × Attrs))) := do
  let pid ← need (dlookup parentKey r)
  let rid ← need (dlookup rawIdKey r)
  pure (dinsert pid (dinsert rid (normalizeAttrs r) (dget pid [] d)) d)

/-- The common shape of `get_camel_converted_product_rate_plans` (parent
key `ProductId`), `..._charges` (parent `ProductRatePlanId`) and
`..._charge_tiers` (parent `ProductRatePlanChargeId`). -/
def groupByParent (parentKey : Str) (recs : List Attrs) :
    Except Unit (List (Str × List (Str × Attrs))) :=
  recs.foldlM (groupStep parentKey) []

/-- Python 2 `score += 1` where `score` may hold the string a present
`priority` attribute put there: `str + int` raises TypeError. -/
def pyAddOne : PyVal → Except Unit PyVal
  | .int n => .ok (.int (n + 1))
  | .str _ => .error ()

/-- The scoring block of `match_product_rate_plans` (lines 1356-1366):
`score = rp_dict.get("priority", 0)`, then for each filter item, if the
plan's attribute for that field is truthy (present and non-empty),
compile it as a case-insensitive pattern and add 1 on a match.  The
values stored by the camel-conversion are all strings, so a present
`priority` makes `score` a string and any increment a TypeError. -/
def scorePlan (rmatch : Str → Str → Bool) (filt : List (Str × Str))
    (rp : Attrs) : Except Unit PyVal :=
  let priority : PyVal :=
    match dlookup priorityKey rp with
    | some s => .str s
    | none => .int 0
  filt.foldlM (fun score fm =>
    match dlookup fm.1 rp with
    | some v =>
      if v ≠ [] then
        if rmatch v fm.2 then pyAddOne score else pure score
      else pure score
    | none => pure score) priority

/-- One assembled rate-plan charge: the charge's normalized attribute
dictionary plus the `rate_plan_charge_tiers` list attached to it. -/
structure ChargeOut where
  attrs : Attrs
  rate_plan_charge_tiers : List Attrs
deriving DecidableEq, Repr

/-- One assembled rate plan: its normalized attributes, the `score`
entry, and the sorted `rate_plan_charges` list. -/
structure PlanOut where
  attrs : Attrs
  score : PyVal
  rate_plan_charges : List ChargeOut
deriving DecidableEq, Repr

/-- One assembled product: its normalized attributes and the sorted
`rate_plans` list. -/
structure ProductOut where
  attrs : Attrs
  rate_plans : List PlanOut
deriving DecidableEq, Repr

/-- The charge sort key `k.get('sort_order', 999)`: the stored string
when the attribute is present, the integer sentinel 999 otherwise. -/
def chargeSortKey (c : ChargeOut) : PyVal :=
  match dlookup sortOrderKey c.attrs with
  | some v => .str v
  | none => .int 999

/-- Comparison used by `sorted(rpc_list, key=lambda k:
k.get('sort_order', 999))`. -/
def chargeAscLE (c1 c2 : ChargeOut) : Bool := pyLE (chargeSortKey c1) (chargeSortKey c2)

/-- The charge sort of line 1383-1385. -/
def sortCharges (l : List ChargeOut) : List ChargeOut := pySorted chargeAscLE l

/-- Comparison used by `sorted(rp_list, key=lambda k: k.get('score', 0),
reverse=True)`: descending, equal keys stable. -/
def planDescLE (p1 p2 : PlanOut) : Bool := pyLE p2.score p1.score

/-- The rate-plan sort of lines 1390-1394. -/
def sortPlans (l : List PlanOut) : List PlanOut := pySorted planDescLE l

/-- The inner charge loop body: look up the charge's own tiers via
`rpct_dict.get(rpc_dict["id"], {})` (KeyError when the normalized dict
has no `id`) and attach them. -/
def buildCharge (tierDict : List (Str × List (Str × Attrs))) (rpc : Attrs) :
    Except Unit ChargeOut := do
  let cid ← need (dlookup idKey rpc)
  pure ⟨rpc, (dget cid [] tierDict).map Prod.snd⟩

/-- The per-plan block: compute the score, assemble the charge list from
`product_rate_plan_charge_dict.get(rate_plan_id, {})`, sort it. -/
def buildPlan (rmatch : Str → Str → Bool) (filt : List (Str × Str))
    (chargeDict tierDict : List (Str × List (Str × Attrs)))
    (rpid : Str) (rp : Attrs) : Except Unit PlanOut := do
  let score ← scorePlan rmatch filt rp
  let rpcList ← (dget rpid [] chargeDict).mapM (fun q => buildCharge tierDict q.2)
  pure ⟨rp, score, sortCharges rpcList⟩

/-- The `rp_list` a product accumulates before sorting: its rate plans
in dictionary (encounter) order, from
`product_rate_plan_dict.get(product_id, {})`. -/
def planEncounter (rmatch : Str → Str → Bool) (filt : List (Str × Str))
    (prpDict chargeDict tierDict : List (Str × List (Str × Attrs)))
    (pid : Str) : Except Unit (List PlanOut) :=
  (dget pid [] prpDict).mapM
    (fun q => buildPlan rmatch filt chargeDict tierDict q.1 q.2)

/-- The per-product block: build the encounter list and attach it sorted
by score descending. -/
def buildProduct (rmatch : Str → Str → Bool) (filt : List (Str × Str))
    (prpDict chargeDict tierDict : List (Str × List (Str × Attrs)))
    (pid : Str) (pAttrs : Attrs) : Except Unit ProductOut := do
  let rpl ← planEncounter rmatch filt prpDict chargeDict tierDict pid
  pure ⟨pAttrs, sortPlans rpl⟩

/-- `match_product_rate_plans` over the four fetched batches: group each
batch as the `get_camel_converted_*` helpers do, then combine.  The
effective-date restriction and the id-list filters of the three child
fetches live in the remote queries and therefore in the batches
themselves. -/
def match_product_rate_plans (rmatch : Str → Str → Bool)
    (filt : List (Str × Str)) (products plans charges tiers : List Attrs) :
    Except Unit (List ProductOut) := do
  let productDict ← groupProducts products
  let prpDict ← groupByParent rawProductIdKey plans
  let chargeDict ← groupByParent rawProductRatePlanIdKey charges
  let tierDict ← groupByParent rawProductRatePlanChargeIdKey tiers
  productDict.mapM (fun p => buildProduct rmatch filt prpDict chargeDict tierDict p.1 p.2)

/-!
## Pricing aggregation
(`get_product_rate_plan_charge_pricing`, client.py lines 1401-1451)

The charge and tier batches again arrive from the remote queries; the
function groups them as above, attaches each charge's tier dictionaries
under the `rate_charge_tiers` key (absent when the charge id never
appears in the tier batch, which makes the later `rpc
["rate_charge_tiers"]` indexing a KeyError), then folds the running
totals keyed by lower-cased charge model and charge type.  `float` is
the external numeral parse, passed in as `pfloat`.
-/

/-- A charge entry of the pricing computation: the normalized attribute
dictionary paired with the optional `rate_charge_tiers` entry
(`none` = key never assigned). -/
abbrev ChargeWT := Attrs × Option (List Attrs)

/-- The tier-attachment loop: for each entry of the grouped tier batch,
index the charge dictionary (KeyError when absent) and extend its
`rate_charge_tiers` list with the tier dictionaries. -/
def attachTiers (cd : List (Str × Attrs)) (td : List (Str × List (Str × Attrs))) :
    Except Unit (List (Str × ChargeWT)) :=
  td.foldlM (fun acc pr => do
    let cur ← need (dlookup pr.1 acc)
    pure (dinsert pr.1 (cur.1, some (cur.2.getD [] ++ pr.2.map Prod.snd)) acc))
    (cd.map (fun p => (p.1, (p.2, (none : Option (List Attrs))))))

/-- The aggregation loop: group by `(charge_model.lower(),
charge_type.lower())`, start from the total already accumulated for that
pair, and add `float(price)` of every tier whose `is_overage_price`
string is falsy, i.e. empty.  The camel conversion stores
`str(attr[1])`, so a boolean overage flag arrives as `"False"`/`"True"`,
both truthy. -/
def pricingAgg (pfloat : Str → ℚ) (cwt : List (Str × ChargeWT)) :
    Except Unit (List (Str × List (Str × ℚ))) :=
  cwt.foldlM (fun pricing pr => do
    let cm ← need (dlookup chargeModelKey pr.2.1)
    let ct ← need (dlookup chargeTypeKey pr.2.1)
    let m := lowerStr cm
    let t := lowerStr ct
    let inner := dget m [] pricing
    let start : ℚ := dget t 0 inner
    let tl ← need pr.2.2
    let price ← tl.foldlM (fun acc tier => do
      let iop ← need (dlookup isOveragePriceKey tier)
      if iop = ([] : Str) then do
        let ps ← need (dlookup priceKey tier)
        pure (acc + pfloat ps)
      else
        pure acc) start
    pure (dinsert m (dinsert t price inner) pricing)) []

/-- `get_product_rate_plan_charge_pricing` over the fetched charge and
tier batches for one rate plan id. -/
def get_product_rate_plan_charge_pricing (pfloat : Str → ℚ) (prpId : Str)
    (charges tiers : List Attrs) : Except Unit (List (Str × List (Str × ℚ))) := do
  let cd ← groupByParent rawProductRatePlanIdKey charges
  let inner ← need (dlookup prpId cd)
  let td ← groupByParent rawProductRatePlanChargeIdKey tiers
  let wt ← attachTiers inner td
  pricingAgg pfloat wt

/-- A concrete model of the external `float()` on nonnegative decimal
numerals (optional fractional part after a full stop), exact on every
such numeral whose value is representable; used to instantiate `pfloat`
in concrete inputs. -/
def parseDecimal (s : Str) : ℚ :=
  let ip := s.takeWhile (fun c => c ≠ 46)
  let fp := (s.dropWhile (fun c => c ≠ 46)).drop 1
  ((ip.foldl (fun n c => n * 10 + (c - 48)) 0 : Nat) : ℚ) +
    ((fp.foldl (fun n c => n * 10 + (c - 48)) 0 : Nat) : ℚ) / ((10 : ℚ) ^ fp.length)

/-!
## `query` whitespace collapsing and `get_account`
(client.py lines 275-295 and 537-552)

`query` submits `' '.join(query_string.split())`; `str.split()` splits
on runs of whitespace and drops leading and trailing runs.
-/

/-- Python whitespace for `str.split()`. -/
def pyIsSpace (n : Nat) : Bool := n = 32 || n = 9 || n = 10 || n = 13 || n = 11 || n = 12

/-- The accumulator scan behind `str.split()`. -/
def splitWsGo : Str → Str → List Str
  | [], cur => if cur = [] then [] else [cur.reverse]
  | c :: t, cur =>
    if pyIsSpace c then
      if cur = [] then splitWsGo t [] else cur.reverse :: splitWsGo t []
    else splitWsGo t (c :: cur)

/-- Python `s.split()`. -/
def pySplit (s : Str) : List Str := splitWsGo s []

/-- `' '.join(query_string.split())`, the normalization `query` applies
before submitting any query string. -/
def collapseWs (s : Str) : Str := List.intercalate [32] (pySplit s)

/-- The raw triple-quoted query template of `get_account` with `user_id`
interpolated twice; the layout whitespace of the Python literal is
normalized away by `collapseWs`, so it is reproduced here only up to
whitespace runs. -/
def get_account_qs (userId : Str) : Str :=
  codes "\n            SELECT Id FROM Account\n            WHERE AccountNumber = '" ++
    userId ++ codes "' or AccountNumber = 'A-" ++ userId ++ codes "'\n            "

/-- The query string `get_account` actually submits. -/
def get_account_query (userId : Str) : Str := collapseWs (get_account_qs userId)

/-- The response handling of `get_account`: a nonempty record list
returns its first record, an empty one raises
`DoesNotExist("Unable to find Account for User ID %s" % user_id)`. -/
def get_account_result (userId : Str) (records : List α) : Except Str α :=
  match records with
  | r :: _ => .ok r
  | [] => .error (codes "Unable to find Account for User ID " ++ userId)

/-!
## The multi-entity fetchers with optional filters
(`get_invoices` lines 633-666, `get_invoice_payments` lines 752-782,
`get_payments` lines 814-851)

Each builds `qs_filter` from its truthy arguments; when the list is
empty it issues no query and falls through to `return None`.  The
functions below return the fetched records (`none` = Python `None`)
paired with the list of query strings issued; `query` is the external
gateway oracle.
-/

/-- A `"Field = '%s'" % value` filter clause. -/
def eqClause (field : String) (v : Str) : Str :=
  codes field ++ codes " = '" ++ v ++ codes "'"

/-- The `qs_filter` entry contributed by one optional argument: present
and truthy (non-empty string) or omitted. -/
def optFilter (field : String) (arg : Option Str) : List Str :=
  match arg with
  | some a => if a ≠ [] then [eqClause field a] else []
  | none => []

/-- `get_invoices`. -/
def get_invoices (query : Str → List Attrs) (accountId : Option Str) :
    Option (List Attrs) × List Str :=
  let qsf := optFilter "AccountId" accountId
  if qsf ≠ [] then
    let qs := collapseWs (codes
      "SELECT AccountID, AdjustmentAmount, Amount, Balance, CreatedDate, DueDate, IncludesOneTime, IncludesRecurring, IncludesUsage, InvoiceDate, InvoiceNumber, PaymentAmount, RefundAmount, Status, TargetDate FROM Invoice WHERE "
      ++ List.intercalate (codes " AND ") qsf)
    (some (query qs), [qs])
  else
    (none, [])

/-- `get_payments`. -/
def get_payments (query : Str → List Attrs) (accountId : Option Str) :
    Option (List Attrs) × List Str :=
  let qsf := optFilter "AccountId" accountId
  if qsf ≠ [] then
    let qs := collapseWs (codes
      "SELECT AccountID, AccountingCode, Amount, AppliedCreditBalanceAmount, AuthTransactionId, BankIdentificationNumber, CancelledOn, Comment, CreatedById, CreatedDate, EffectiveDate, GatewayOrderId, GatewayResponse, GatewayResponseCode, GatewayState, MarkedForSubmissionOn, PaymentMethodID, PaymentNumber, ReferenceId, RefundAmount, SecondPaymentReferenceId, SettledOn, SoftDescriptor, Status, SubmittedOn, TransferredToAccounting, Type, UpdatedById, UpdatedDate FROM Payment WHERE "
      ++ List.intercalate (codes " AND ") qsf)
    (some (query qs), [qs])
  else
    (none, [])

/-- `get_invoice_payments`. -/
def get_invoice_payments (query : Str → List Attrs)
    (invoiceId paymentId : Option Str) : Option (List Attrs) × List Str :=
  let qsf := optFilter "InvoiceId" invoiceId ++ optFilter "PaymentId" paymentId
  if qsf ≠ [] then
    let qs := collapseWs (codes
      "SELECT Amount, CreatedById, CreatedDate, InvoiceId, PaymentId, RefundAmount, UpdatedById, UpdatedDate FROM InvoicePayment WHERE "
      ++ List.intercalate (codes " AND ") qsf)
    (some (query qs), [qs])
  else
    (none, [])

/-!
## `make_account` submission step (client.py lines 1619-1626)

    response = self.create(zAccount)
    if not isinstance(response, list) or not response[0].Success:
        raise ZuoraException(
            "Unknown Error creating Account. %s" % response)
    zAccount.Id = response[0].Id

The locally built account has no `Id` attribute before this point; it is
assigned only on the success path.
-/

/-- One per-object result of the remote `create`/`update` call. -/
structure RespItem where
  success : Bool
  newId : Str
deriving DecidableEq, Repr

/-- The shape of a create response as the builder inspects it: a Python
list of results, or any non-list value. -/
inductive PyResp where
  | notList : PyResp
  | list : List RespItem → PyResp
deriving DecidableEq, Repr

/-- What the failing paths of the builder raise: the domain error
`ZuoraException` carrying the raw response, or the `IndexError` from
`response[0]` on an empty list. -/
inductive BuilderError where
  | zuoraException : PyResp → BuilderError
  | indexError : BuilderError
deriving DecidableEq, Repr

/-- The locally built account, reduced to the fields the claims
inspect: the `AccountNumber = "A-%s" % user["id"]` assignment (line
1585) and the remote `Id`, which the local build leaves unassigned. -/
structure ZAccount where
  accountNumber : Str
  remoteId : Option Str
deriving DecidableEq, Repr

/-- `make_account`'s local build, before the create call. -/
def make_account_local (userId : Str) : ZAccount :=
  { accountNumber := codes "A-" ++ userId, remoteId := none }

/-- The submission step quoted above.  `not isinstance(response, list)`
is checked first and raises the domain error; on a list the
short-circuit `or` evaluates `response[0].Success`, so an empty list
raises IndexError; a falsy first `Success` raises the domain error; and
only the success path assigns the remote id. -/
def make_account_submit (acct : ZAccount) (resp : PyResp) :
    Except BuilderError ZAccount :=
  match resp with
  | .notList => .error (.zuoraException resp)
  | .list [] => .error .indexError
  | .list (r0 :: _) =>
    if r0.success then .ok { acct with remoteId := some r0.newId }
    else .error (.zuoraException resp)

/-!
## Support lemmas: `Except` plumbing, order properties of `pyLE`
-/

theorem except_bind_ok {α β : Type} {x : Except Unit α} {f : α → Except Unit β}
    {b : β} (h : (x >>= f) = .ok b) : ∃ a, x = .ok a ∧ f a = .ok b := by
  cases x with
  | error e => simp [Bind.bind, Except.bind] at h
  | ok a => exact ⟨a, rfl, by simpa [Bind.bind, Except.bind] using h⟩

theorem except_bind_error {α β : Type} {x : Except Unit α} {f : α → Except Unit β}
    (h : x = .error ()) : (x >>= f) = .error () := by
  subst h; rfl

theorem mapM_ok_mem {α β : Type} {f : α → Except Unit β} :
    ∀ {l : List α} {out : List β}, l.mapM f = .ok out →
      ∀ b ∈ out, ∃ a ∈ l, f a = .ok b := by
  intro l
  induction l with
  | nil =>
    intro out h b hb
    rw [List.mapM_nil] at h
    cases h
    simp at hb
  | cons a t ih =>
    intro out h b hb
    rw [List.mapM_cons] at h
    rcases except_bind_ok h with ⟨b1, hb1, h⟩
    rcases except_bind_ok h with ⟨bs, hbs, h⟩
    cases h
    rcases List.mem_cons.mp hb with hb | hb
    · exact ⟨a, List.mem_cons_self a t, hb ▸ hb1⟩
    · rcases ih hbs b hb with ⟨a2, ha2, hfa2⟩
      exact ⟨a2, List.mem_cons_of_mem _ ha2, hfa2⟩

theorem mapM_congr {α β : Type} {f g : α → Except Unit β} :
    ∀ {l : List α}, (∀ x ∈ l, f x = g x) → l.mapM f = l.mapM g := by
  intro l
  induction l with
  | nil => intro _; rfl
  | cons a t ih =>
    intro h
    rw [List.mapM_cons, List.mapM_cons, h a (List.mem_cons_self a t),
      ih (fun x hx => h x (List.mem_cons_of_mem _ hx))]

theorem strLE_refl (s : Str) : strLE s s = true := by
  induction s with
  | nil => rfl
  | cons a t ih => simp [strLE, ih]

theorem strLE_antisymm (s t : Str) (h1 : strLE s t = true) (h2 : strLE t s = true) :
    s = t := by
  induction s generalizing t with
  | nil =>
    match t with
    | [] => rfl
    | b :: t1 => simp [strLE] at h2
  | cons a s1 ih =>
    match t with
    | [] => simp [strLE] at h1
    | b :: t1 =>
      simp only [strLE] at h1 h2
      rcases Nat.lt_trichotomy a b with hab | hab | hab
      · rw [if_neg (by omega), if_pos hab] at h2
        exact absurd h2 (by simp)
      · subst hab
        rw [if_neg (Nat.lt_irrefl a), if_neg (Nat.lt_irrefl a)] at h1 h2
        rw [ih t1 h1 h2]
      · rw [if_neg (by omega), if_pos hab] at h1
        exact absurd h1 (by simp)

theorem pyLE_refl (a : PyVal) : pyLE a a = true := by
  match a with
  | .int x => simp [pyLE]
  | .str s => exact strLE_refl s

theorem pyLE_antisymm (a b : PyVal) (h1 : pyLE a b = true) (h2 : pyLE b a = true) :
    a = b := by
  match a, b with
  | .int x, .int y =>
    simp only [pyLE, decide_eq_true_eq] at h1 h2
    have : x = y := le_antisymm h1 h2
    rw [this]
  | .int _, .str _ => simp [pyLE] at h2
  | .str _, .int _ => simp [pyLE] at h1
  | .str s, .str t => rw [strLE_antisymm s t h1 h2]

theorem planDescLE_total (p q : PlanOut) :
    planDescLE p q = true ∨ planDescLE q p = true := pyLE_total q.score p.score

theorem planDescLE_trans (p q r : PlanOut) (h1 : planDescLE p q = true)
    (h2 : planDescLE q r = true) : planDescLE p r = true :=
  pyLE_trans r.score q.score p.score h2 h1

theorem chargeAscLE_total (p q : ChargeOut) :
    chargeAscLE p q = true ∨ chargeAscLE q p = true :=
  pyLE_total (chargeSortKey p) (chargeSortKey q)

theorem chargeAscLE_trans (p q r : ChargeOut) (h1 : chargeAscLE p q = true)
    (h2 : chargeAscLE q r = true) : chargeAscLE p r = true :=
  pyLE_trans (chargeSortKey p) (chargeSortKey q) (chargeSortKey r) h1 h2

/-!
## Claim C1
-/

/-- A regex-match oracle instantiation for concrete inputs: a literal
pattern with no metacharacters matches under `re.match` exactly when it
is a prefix of the subject; the inputs below only consult equal-length
literals, where this agrees with `re.match`. -/
def rmatchLiteral : Str → Str → Bool := fun p s => p == s

/-- An integer numeral parse, the value the claim reads a configured
priority as. -/
def parseIntStr (s : Str) : Int := (s.foldl (fun n c => n * 10 + (c - 48)) 0 : Nat)

/-- Modelled from the spec (claim C1 wording): the score the claim
predicts, namely the configured priority as a number (0 when the
attribute is absent) plus one for each filter field whose value the
plan's corresponding attribute value, compiled as a pattern, matches. -/
def specScoreC1 (rmatch : Str → Str → Bool) (filt : List (Str × Str)) (rp : Attrs) : Int :=
  (match dlookup priorityKey rp with
   | some s => parseIntStr s
   | none => 0) +
  filt.foldl (fun n fm =>
    match dlookup fm.1 rp with
    | some v => if rmatch v fm.2 then n + 1 else n
    | none => n) 0

/-- Claim C1: the score of every processed rate plan equals its
configured priority (0 when absent) plus 1 per case-insensitively
matching filter field, with no error raised.  The code cannot do this:
the camel-converted dictionaries store every value as a string, so for
the plan `{priority: "2", site: "run"}` and filter `{site: "run"}`
(pattern `"run"` matches subject `"run"`) the claim predicts score
`2 + 1 = 3`, but `rp_dict["score"] += 1` adds an int to the string
`"2"` and raises a Python 2 TypeError, aborting the whole call. -/
theorem C1_priority_string_typeerror :
    scorePlan rmatchLiteral [(codes "site", codes "run")]
      [(priorityKey, codes "2"), (codes "site", codes "run")] = .error () ∧
    specScoreC1 rmatchLiteral [(codes "site", codes "run")]
      [(priorityKey, codes "2"), (codes "site", codes "run")] = 3 := by
  constructor
  · decide
  · decide

/-!
## Claim C4
-/

/-- The three charges of the claim C4 example, with configured sort
orders `"2"`, absent, `"1"` (charge attribute values are stored as
strings by the camel conversion). -/
def c4ChargeTwo : ChargeOut := ⟨[(sortOrderKey, codes "2"), (idKey, codes "c1")], []⟩

def c4ChargeNone : ChargeOut := ⟨[(idKey, codes "c2")], []⟩

def c4ChargeOne : ChargeOut := ⟨[(sortOrderKey, codes "1"), (idKey, codes "c3")], []⟩

/-- Claim C4 predicts sort keys `[2, None, 1]` come out
`[1, 2, None]` (missing sort-order last via the 999 sentinel).  The
stored sort orders are the strings `"2"` and `"1"` while the sentinel is
the integer `999`, and Python 2 orders every int before every str, so
the charge with no sort order comes out first, not last:
`[None, "1", "2"]`. -/
theorem C4_missing_sort_order_first :
    sortCharges [c4ChargeTwo, c4ChargeNone, c4ChargeOne] =
      [c4ChargeNone, c4ChargeOne, c4ChargeTwo] := by decide

/-!
## Claim C2
-/

/-- Two charges of one rate plan, both `(FlatFee, Recurring)`. -/
def c2ChargeA : Attrs := [(codes "Id", codes "c1"), (codes "ProductRatePlanId", codes "rp1"),
  (codes "ChargeModel", codes "FlatFee"), (codes "ChargeType", codes "Recurring")]

def c2ChargeB : Attrs := [(codes "Id", codes "c2"), (codes "ProductRatePlanId", codes "rp1"),
  (codes "ChargeModel", codes "FlatFee"), (codes "ChargeType", codes "Recurring")]

/-- Their two tiers, prices 10 and 5, neither flagged overage: the
remote boolean false is serialized by `str()` to `"False"`. -/
def c2TierA : Attrs := [(codes "Id", codes "t1"), (codes "ProductRatePlanChargeId", codes "c1"),
  (codes "Price", codes "10"), (codes "IsOveragePrice", codes "False")]

def c2TierB : Attrs := [(codes "Id", codes "t2"), (codes "ProductRatePlanChargeId", codes "c2"),
  (codes "Price", codes "5"), (codes "IsOveragePrice", codes "False")]

/-- Claim C2 predicts `{"flatfee": {"recurring": 15}}` for tier prices
`[10, 5]`, neither overage.  The tier dictionaries store
`is_overage_price` as the string `"False"`, which is truthy, so `if not
is_overage_price` skips every such tier and the aggregate is 0, not
15. -/
theorem C2_pricing_skips_all_tiers :
    get_product_rate_plan_charge_pricing parseDecimal (codes "rp1")
      [c2ChargeA, c2ChargeB] [c2TierA, c2TierB] =
      .ok [(codes "flatfee", [(codes "recurring", 0)])] := by decide

/-!
## Claim C6
-/

/-- Claim C6 as stated fails: normalization removes every occurrence of
`__c` (`key.replace("__c", "")`), not only a trailing marker.  On the
raw key `Ab__cCd` the code produces `ab_cd`, while stripping only a
trailing marker would produce `ab__c_cd`. -/
theorem C6_counterexample :
    normalizeKey (codes "Ab__cCd") = codes "ab_cd" ∧
    specNormalizeKey (codes "Ab__cCd") = codes "ab__c_cd" ∧
    normalizeKey (codes "Ab__cCd") ≠ specNormalizeKey (codes "Ab__cCd") := by decide

/-- Claim C6 amended: every emitted key is produced by removing every
occurrence of the custom-field marker from the raw key
(`stripCustomField`) and then applying the two regex passes and
lower-casing (`convert_camel`); every emitted key is lower-case (no
ASCII capital survives), and `ShortCode__c` becomes `short_code`. -/
theorem C6_normalized_keys :
    (∀ k : Str, normalizeKey k = convert_camel (stripCustomField k)) ∧
    (∀ k : Str, (normalizeKey k).all (fun c => !isUpperCode c) = true) ∧
    normalizeKey (codes "ShortCode__c") = codes "short_code" := by
  refine ⟨fun k => rfl, fun k => ?_, by decide⟩
  apply List.all_eq_true.mpr
  intro c hc
  simp [normalizeKey_not_upper k c hc]

/-!
## Claim C7
-/

/-- Claim C7 as stated fails: normalization is not idempotent.  The raw
key `a__C` normalizes to `a__c` (the case-sensitive replace does not
touch `__C`, and lower-casing then creates a marker), and normalizing
`a__c` strips the marker, giving `a`. -/
theorem C7_counterexample :
    normalizeKey (codes "a__C") = codes "a__c" ∧
    normalizeKey (normalizeKey (codes "a__C")) = codes "a" ∧
    normalizeKey (normalizeKey (codes "a__C")) ≠ normalizeKey (codes "a__C") := by decide

/-- Claim C7 amended: normalization is idempotent on every key whose
normalized form does not itself contain the custom-field marker
(equivalently, the camel conversion alone is idempotent, and the marker
strip re-fires only when the normalized key still contains `__c`). -/
theorem C7_normalize_idempotent (k : Str)
    (h : hasCustomField (normalizeKey k) = false) :
    normalizeKey (normalizeKey k) = normalizeKey k :=
  normalizeKey_idempotent_of_no_marker k h

/-- Witness for C7 at the key `ShortCode__c`. -/
theorem C7_witness :
    hasCustomField (normalizeKey (codes "ShortCode__c")) = false ∧
    normalizeKey (normalizeKey (codes "ShortCode__c")) = normalizeKey (codes "ShortCode__c") :=
  ⟨by decide, C7_normalize_idempotent (codes "ShortCode__c") (by decide)⟩

/-!
## Claim C8
-/

/-- Claim C8 as stated fails on the empty-sequence shape: `not
isinstance(response, list)` is false for `[]`, so the short-circuit
`or` evaluates `response[0].Success` and `response[0]` raises
IndexError, not the domain error carrying the response. -/
theorem C8_counterexample :
    make_account_submit (make_account_local (codes "7")) (.list []) =
      .error .indexError ∧
    ∀ resp2 : PyResp,
      make_account_submit (make_account_local (codes "7")) (.list []) ≠
        .error (.zuoraException resp2) := by
  constructor
  · rfl
  · intro resp2 h
    simp [make_account_submit, make_account_local] at h

/-- Claim C8 amended: a create response that is not a list, or is a
nonempty list whose first element reports failure, raises
`ZuoraException` carrying the raw response (an empty list instead
raises IndexError), and no failing shape returns an account object, so
the locally built account keeps its unassigned remote id. -/
theorem C8_builder_failure (acct : ZAccount) (resp : PyResp)
    (h : resp = .notList ∨
      ∃ r0 rest, resp = .list (r0 :: rest) ∧ r0.success = false) :
    make_account_submit acct resp = .error (.zuoraException resp) ∧
    ∀ acct2 : ZAccount, make_account_submit acct resp ≠ .ok acct2 := by
  rcases h with h | ⟨r0, rest, h, hfail⟩
  · subst h
    exact ⟨rfl, fun acct2 hh => by simp [make_account_submit] at hh⟩
  · subst h
    refine ⟨?_, ?_⟩
    · simp [make_account_submit, hfail]
    · intro acct2 hh
      simp [make_account_submit, hfail] at hh

/-- Witness for C8: a first-element-failure response raises the domain
error and yields no account object. -/
theorem C8_witness :
    make_account_submit (make_account_local (codes "7"))
        (.list [⟨false, codes "r9"⟩]) =
      .error (.zuoraException (.list [⟨false, codes "r9"⟩])) ∧
    ∀ acct2 : ZAccount,
      make_account_submit (make_account_local (codes "7"))
        (.list [⟨false, codes "r9"⟩]) ≠ .ok acct2 :=
  C8_builder_failure (make_account_local (codes "7")) (.list [⟨false, codes "r9"⟩])
    (Or.inr ⟨⟨false, codes "r9"⟩, [], rfl, rfl⟩)

/-!
## Claim C9
-/

/-- Claim C9: `get_account("32432")` submits (after the whitespace
collapse `query` applies) exactly the query whose WHERE clause is
`AccountNumber = '32432' or AccountNumber = 'A-32432'` (the source
writes the disjunction keyword in lower case); zero matching records
raise `DoesNotExist` whose message references user id 32432; a
nonempty record list returns its first record. -/
theorem C9_get_account :
    get_account_query (codes "32432") =
      codes "SELECT Id FROM Account WHERE AccountNumber = '32432' or AccountNumber = 'A-32432'" ∧
    get_account_result (codes "32432") ([] : List Attrs) =
      .error (codes "Unable to find Account for User ID 32432") ∧
    ∀ (r : Attrs) (rest : List Attrs),
      get_account_result (codes "32432") (r :: rest) = .ok r := by
  refine ⟨by decide, by decide, fun r rest => rfl⟩

/-!
## Claim C10
-/

/-- Claim C10: with every optional filter absent, `get_invoices`,
`get_payments` and `get_invoice_payments` issue no query (the issued
query list is empty) and return Python `None` (`Option.none`) -- not an
empty record sequence and not an error -- whatever the gateway would
have answered. -/
theorem C10_no_filter_no_query :
    ∀ query : Str → List Attrs,
      get_invoices query none = (none, []) ∧
      get_payments query none = (none, []) ∧
      get_invoice_payments query none none = (none, []) :=
  fun _ => ⟨rfl, rfl, rfl⟩

/-!
## Claim C3
-/

theorem planDescLE_equiv_iff (q : PlanOut) (s : PyVal) :
    (planDescLE q ⟨[], s, []⟩ && planDescLE ⟨[], s, []⟩ q) = (q.score == s) := by
  unfold planDescLE
  by_cases h : q.score = s
  · simp [h, pyLE_refl]
  · have hne : (q.score == s) = false := by
      simp only [beq_eq_false_iff_ne, ne_eq]
      exact h
    rw [hne]
    by_cases h1 : pyLE s q.score = true
    · by_cases h2 : pyLE q.score s = true
      · exact absurd (pyLE_antisymm _ _ h2 h1) h
      · simp only [Bool.not_eq_true] at h2
        simp [h2]
    · simp only [Bool.not_eq_true] at h1
      simp [h1]

/-- Claim C3: in the output of `match_product_rate_plans`, each
product's `rate_plans` list is the stable descending-by-score sort of
the product's encounter-order plan list (`planEncounter`): the emitted
list is sorted descending under the Python 2 comparison on the stored
scores (`planDescLE a b` is `score b <= score a`), and for every score
value the plans carrying it appear in their encounter order.  The
`[3,1,3,0] => [A,C,B,D]` example of the claim is the witness below. -/
theorem C3_rate_plans_sorted (rmatch : Str → Str → Bool) (filt : List (Str × Str))
    (products plans charges tiers : List Attrs) (out : List ProductOut)
    (h : match_product_rate_plans rmatch filt products plans charges tiers = .ok out) :
    ∃ prpDict chargeDict tierDict,
      groupByParent rawProductIdKey plans = .ok prpDict ∧
      groupByParent rawProductRatePlanIdKey charges = .ok chargeDict ∧
      groupByParent rawProductRatePlanChargeIdKey tiers = .ok tierDict ∧
      ∀ po ∈ out, ∃ pid rpl,
        planEncounter rmatch filt prpDict chargeDict tierDict pid = .ok rpl ∧
        po.rate_plans = sortPlans rpl ∧
        po.rate_plans.Pairwise (fun a b => planDescLE a b = true) ∧
        ∀ s : PyVal,
          po.rate_plans.filter (fun q => q.score == s) =
            rpl.filter (fun q => q.score == s) := by
  unfold match_product_rate_plans at h
  rcases except_bind_ok h with ⟨productDict, hpd, h⟩
  rcases except_bind_ok h with ⟨prpDict, hprp, h⟩
  rcases except_bind_ok h with ⟨chargeDict, hcd, h⟩
  rcases except_bind_ok h with ⟨tierDict, htd, h⟩
  refine ⟨prpDict, chargeDict, tierDict, hprp, hcd, htd, ?_⟩
  intro po hpo
  rcases mapM_ok_mem h po hpo with ⟨p, _, hbuild⟩
  unfold buildProduct at hbuild
  rcases except_bind_ok hbuild with ⟨rpl, henc, hpure⟩
  have hpo2 : po = ⟨p.2, sortPlans rpl⟩ := by
    simpa [pure, Except.pure] using hpure.symm
  refine ⟨p.1, rpl, henc, by rw [hpo2], ?_, ?_⟩
  · rw [hpo2]
    exact pairwise_pySorted planDescLE planDescLE_total planDescLE_trans rpl
  · intro s
    rw [hpo2]
    have hfil := filter_pySorted planDescLE planDescLE_total planDescLE_trans
      (⟨[], s, []⟩ : PlanOut) rpl
    calc (sortPlans rpl).filter (fun q => q.score == s)
        = (sortPlans rpl).filter
            (fun q => planDescLE q ⟨[], s, []⟩ && planDescLE ⟨[], s, []⟩ q) :=
          (List.filter_congr (fun q _ => planDescLE_equiv_iff q s)).symm
      _ = rpl.filter (fun q => planDescLE q ⟨[], s, []⟩ && planDescLE ⟨[], s, []⟩ q) := hfil
      _ = rpl.filter (fun q => q.score == s) :=
          List.filter_congr (fun q _ => planDescLE_equiv_iff q s)

/-- The claim C3 example input: one product `P1` with four plans
`A,B,C,D` in encounter order whose scores under the filter
`{s: x, g: y, a: z}` come out `3,1,3,0` (no `priority` attributes, so
all scores are ints). -/
def c3Filt : List (Str × Str) :=
  [(codes "s", codes "x"), (codes "g", codes "y"), (codes "a", codes "z")]

def c3Prod : Attrs := [(codes "Id", codes "P1"), (codes "Name", codes "prod")]

def c3PlanA : Attrs := [(codes "Id", codes "A"), (codes "ProductId", codes "P1"),
  (codes "S__c", codes "x"), (codes "G__c", codes "y"), (codes "A__c", codes "z")]

def c3PlanB : Attrs := [(codes "Id", codes "B"), (codes "ProductId", codes "P1"),
  (codes "S__c", codes "x")]

def c3PlanC : Attrs := [(codes "Id", codes "C"), (codes "ProductId", codes "P1"),
  (codes "S__c", codes "x"), (codes "G__c", codes "y"), (codes "A__c", codes "z")]

def c3PlanD : Attrs := [(codes "Id", codes "D"), (codes "ProductId", codes "P1")]

def c3OutPlanA : PlanOut := ⟨[(codes "id", codes "A"), (codes "product_id", codes "P1"),
  (codes "s", codes "x"), (codes "g", codes "y"), (codes "a", codes "z")], .int 3, []⟩

def c3OutPlanB : PlanOut := ⟨[(codes "id", codes "B"), (codes "product_id", codes "P1"),
  (codes "s", codes "x")], .int 1, []⟩

def c3OutPlanC : PlanOut := ⟨[(codes "id", codes "C"), (codes "product_id", codes "P1"),
  (codes "s", codes "x"), (codes "g", codes "y"), (codes "a", codes "z")], .int 3, []⟩

def c3OutPlanD : PlanOut := ⟨[(codes "id", codes "D"), (codes "product_id", codes "P1")],
  .int 0, []⟩

/-- The matching result at the example: plans ordered `A, C, B, D` --
descending by score with the two score-3 plans in encounter order. -/
def c3Out : ProductOut := ⟨[(codes "id", codes "P1"), (codes "name", codes "prod")],
  [c3OutPlanA, c3OutPlanC, c3OutPlanB, c3OutPlanD]⟩

/-- Witness for C3: the concrete scores-`[3,1,3,0]` input evaluates to
plan order `[A, C, B, D]`, and the sortedness/stability theorem applies
to it. -/
theorem C3_witness :
    match_product_rate_plans rmatchLiteral c3Filt [c3Prod]
        [c3PlanA, c3PlanB, c3PlanC, c3PlanD] [] [] = .ok [c3Out] ∧
    (∃ prpDict chargeDict tierDict,
      groupByParent rawProductIdKey [c3PlanA, c3PlanB, c3PlanC, c3PlanD] = .ok prpDict ∧
      groupByParent rawProductRatePlanIdKey [] = .ok chargeDict ∧
      groupByParent rawProductRatePlanChargeIdKey [] = .ok tierDict ∧
      ∀ po ∈ [c3Out], ∃ pid rpl,
        planEncounter rmatchLiteral c3Filt prpDict chargeDict tierDict pid = .ok rpl ∧
        po.rate_plans = sortPlans rpl ∧
        po.rate_plans.Pairwise (fun a b => planDescLE a b = true) ∧
        ∀ s : PyVal,
          po.rate_plans.filter (fun q => q.score == s) =
            rpl.filter (fun q => q.score == s)) :=
  ⟨by decide,
    C3_rate_plans_sorted rmatchLiteral c3Filt [c3Prod]
      [c3PlanA, c3PlanB, c3PlanC, c3PlanD] [] [] [c3Out] (by decide)⟩

/-!
## Claim C5: support lemmas

An orphan child record only changes the grouped dictionary at its own
parent key; the combine loop never consults that key, so removing the
orphan from its batch leaves the whole matching result unchanged.
-/

theorem ok_bind {α β : Type} (a : α) (f : α → Except Unit β) :
    ((.ok a : Except Unit α) >>= f) = f a := rfl

theorem error_bind {α β : Type} (f : α → Except Unit β) :
    ((.error () : Except Unit α) >>= f) = .error () := rfl

theorem groupStep_none_parent (pk : Str) (d : List (Str × List (Str × Attrs)))
    (r : Attrs) (hp : dlookup pk r = none) : groupStep pk d r = .error () := by
  unfold groupStep
  rw [hp]
  rfl

theorem groupStep_none_id (pk : Str) (d : List (Str × List (Str × Attrs)))
    (r : Attrs) (pid2 : Str) (hp : dlookup pk r = some pid2)
    (hid : dlookup rawIdKey r = none) : groupStep pk d r = .error () := by
  unfold groupStep
  rw [hp, hid]
  rfl

theorem groupStep_ok (pk : Str) (d : List (Str × List (Str × Attrs)))
    (r : Attrs) (pid2 rid : Str) (hp : dlookup pk r = some pid2)
    (hid : dlookup rawIdKey r = some rid) :
    groupStep pk d r =
      .ok (dinsert pid2 (dinsert rid (normalizeAttrs r) (dget pid2 [] d)) d) := by
  unfold groupStep
  rw [hp, hid]
  rfl

/-- Two grouping results that agree at every key other than `pid`
(and fail together). -/
def AgreeOff {α : Type} (pid : Str) :
    Except Unit (List (Str × α)) → Except Unit (List (Str × α)) → Prop
  | .ok d1, .ok d2 => ∀ k, k ≠ pid → dlookup k d1 = dlookup k d2
  | .error _, .error _ => True
  | _, _ => False

theorem groupFold_agree (pk pid : Str) :
    ∀ (l : List Attrs) (d1 d2 : List (Str × List (Str × Attrs))),
      (∀ k, k ≠ pid → dlookup k d1 = dlookup k d2) →
      AgreeOff pid (List.foldlM (groupStep pk) d1 l) (List.foldlM (groupStep pk) d2 l) := by
  intro l
  induction l with
  | nil =>
    intro d1 d2 h
    rw [List.foldlM_nil, List.foldlM_nil]
    exact h
  | cons r t ih =>
    intro d1 d2 h
    rw [List.foldlM_cons, List.foldlM_cons]
    cases hp : dlookup pk r with
    | none =>
      rw [groupStep_none_parent pk d1 r hp, groupStep_none_parent pk d2 r hp]
      trivial
    | some pid2 =>
      cases hid : dlookup rawIdKey r with
      | none =>
        rw [groupStep_none_id pk d1 r pid2 hp hid, groupStep_none_id pk d2 r pid2 hp hid]
        trivial
      | some rid =>
        rw [groupStep_ok pk d1 r pid2 rid hp hid, groupStep_ok pk d2 r pid2 rid hp hid,
          ok_bind, ok_bind]
        apply ih
        intro k hk
        rw [dlookup_dinsert, dlookup_dinsert]
        by_cases hk2 : pid2 = k
        · subst hk2
          have hgd : dget pid2 [] d1 = dget pid2 [] d2 := by
            unfold dget
            rw [h pid2 hk]
          simp [hgd]
        · simp [hk2, h k hk]

theorem groupByParent_skip (pk : Str) (c : Attrs) (pid cid : Str)
    (hp : dlookup pk c = some pid) (hid : dlookup rawIdKey c = some cid)
    (l1 l2 : List Attrs) :
    AgreeOff pid (groupByParent pk (l1 ++ c :: l2)) (groupByParent pk (l1 ++ l2)) := by
  unfold groupByParent
  rw [List.foldlM_append, List.foldlM_append]
  cases h1 : List.foldlM (groupStep pk) [] l1 with
  | error e =>
    cases e
    rw [error_bind, error_bind]
    trivial
  | ok d =>
    rw [ok_bind, ok_bind, List.foldlM_cons, groupStep_ok pk d c pid cid hp hid, ok_bind]
    apply groupFold_agree
    intro k hk
    rw [dlookup_dinsert, if_neg (fun hh => hk hh.symm)]

theorem groupFold_provenance (pk : Str) :
    ∀ (l : List Attrs) (d0 d : List (Str × List (Str × Attrs))),
      List.foldlM (groupStep pk) d0 l = .ok d →
      ∀ p ∈ d, ∀ q ∈ p.2,
        (∃ p0 ∈ d0, p0.1 = p.1 ∧ q ∈ p0.2) ∨
        (∃ r ∈ l, dlookup pk r = some p.1 ∧ dlookup rawIdKey r = some q.1 ∧
          normalizeAttrs r = q.2) := by
  intro l
  induction l with
  | nil =>
    intro d0 d h p hp q hq
    rw [List.foldlM_nil] at h
    cases h
    exact Or.inl ⟨p, hp, rfl, hq⟩
  | cons r t ih =>
    intro d0 d h p hp q hq
    rw [List.foldlM_cons] at h
    rcases except_bind_ok h with ⟨d1, hstep, hfold⟩
    cases hpk : dlookup pk r with
    | none => rw [groupStep_none_parent pk d0 r hpk] at hstep; cases hstep
    | some pid2 =>
      cases hid : dlookup rawIdKey r with
      | none => rw [groupStep_none_id pk d0 r pid2 hpk hid] at hstep; cases hstep
      | some rid =>
        rw [groupStep_ok pk d0 r pid2 rid hpk hid] at hstep
        have hd1 : d1 = dinsert pid2 (dinsert rid (normalizeAttrs r) (dget pid2 [] d0)) d0 := by
          cases hstep
          rfl
        rcases ih d1 d hfold p hp q hq with ⟨p0, hp0, hkeq, hq0⟩ | ⟨r2, hr2, hprov⟩
        · subst hd1
          rcases mem_dinsert _ _ _ _ hp0 with hcase | hcase
          · have hq0b : q ∈ dinsert rid (normalizeAttrs r) (dget pid2 [] d0) := by
              rw [hcase] at hq0
              exact hq0
            rcases mem_dinsert _ _ _ _ hq0b with hq1 | hq1
            · refine Or.inr ⟨r, List.mem_cons_self r t, ?_, ?_, ?_⟩
              · rw [← hkeq, hcase, hpk]
              · rw [hq1, hid]
              · rw [hq1]
            · unfold dget at hq1
              cases hold : dlookup pid2 d0 with
              | none => rw [hold] at hq1; simp at hq1
              | some inn =>
                rw [hold] at hq1
                refine Or.inl ⟨(pid2, inn), dlookup_mem _ _ _ hold, ?_, hq1⟩
                rw [← hkeq, hcase]
          · exact Or.inl ⟨p0, hcase, hkeq, hq0⟩
        · exact Or.inr ⟨r2, List.mem_cons_of_mem _ hr2, hprov⟩

/-- Entries of a grouped two-level dictionary come from records of the
batch: the outer key is the record's parent attribute, the inner key its
`Id`, the inner value its normalized attributes. -/
theorem groupByParent_provenance (pk : Str) (l : List Attrs)
    (d : List (Str × List (Str × Attrs))) (h : groupByParent pk l = .ok d) :
    ∀ p ∈ d, ∀ q ∈ p.2,
      ∃ r ∈ l, dlookup pk r = some p.1 ∧ dlookup rawIdKey r = some q.1 ∧
        normalizeAttrs r = q.2 := by
  intro p hp q hq
  rcases groupFold_provenance pk l [] d h p hp q hq with ⟨p0, hp0, _⟩ | hgood
  · simp at hp0
  · exact hgood

theorem groupProductsStep_none (d : List (Str × Attrs)) (r : Attrs)
    (h : dlookup rawIdKey r = none) : groupProductsStep d r = .error () := by
  unfold groupProductsStep
  rw [h]
  rfl

theorem groupProductsStep_ok (d : List (Str × Attrs)) (r : Attrs) (pid : Str)
    (h : dlookup rawIdKey r = some pid) :
    groupProductsStep d r = .ok (dinsert pid (normalizeAttrs r) d) := by
  unfold groupProductsStep
  rw [h]
  rfl

theorem groupProductsFold_provenance :
    ∀ (l : List Attrs) (d0 d : List (Str × Attrs)),
      List.foldlM groupProductsStep d0 l = .ok d →
      ∀ p ∈ d, p ∈ d0 ∨
        ∃ r ∈ l, dlookup rawIdKey r = some p.1 ∧ normalizeAttrs r = p.2 := by
  intro l
  induction l with
  | nil =>
    intro d0 d h p hp
    rw [List.foldlM_nil] at h
    cases h
    exact Or.inl hp
  | cons r t ih =>
    intro d0 d h p hp
    rw [List.foldlM_cons] at h
    rcases except_bind_ok h with ⟨d1, hstep, hfold⟩
    cases hid : dlookup rawIdKey r with
    | none => rw [groupProductsStep_none d0 r hid] at hstep; cases hstep
    | some pid =>
      rw [groupProductsStep_ok d0 r pid hid] at hstep
      have hd1 : d1 = dinsert pid (normalizeAttrs r) d0 := by
        cases hstep
        rfl
      rcases ih d1 d hfold p hp with hp0 | ⟨r2, hr2, hprov⟩
      · subst hd1
        rcases mem_dinsert _ _ _ _ hp0 with hcase | hcase
        · refine Or.inr ⟨r, List.mem_cons_self r t, ?_, ?_⟩
          · rw [hcase, hid]
          · rw [hcase]
        · exact Or.inl hcase
      · exact Or.inr ⟨r2, List.mem_cons_of_mem _ hr2, hprov⟩

/-- Keys of the grouped product dictionary are `Id` values of product
records of the batch. -/
theorem groupProducts_provenance (l : List Attrs) (d : List (Str × Attrs))
    (h : groupProducts l = .ok d) :
    ∀ p ∈ d, ∃ r ∈ l, dlookup rawIdKey r = some p.1 ∧ normalizeAttrs r = p.2 := by
  intro p hp
  rcases groupProductsFold_provenance l [] d h p hp with hp0 | hgood
  · simp at hp0
  · exact hgood

/-!
### Congruence of the combine loop in each grouped dictionary
-/

theorem buildPlan_chargeDict_congr (rm : Str → Str → Bool) (filt : List (Str × Str))
    (cd1 cd2 td : List (Str × List (Str × Attrs))) (rpid : Str) (rp : Attrs)
    (h : dlookup rpid cd1 = dlookup rpid cd2) :
    buildPlan rm filt cd1 td rpid rp = buildPlan rm filt cd2 td rpid rp := by
  unfold buildPlan
  have hg : dget rpid [] cd1 = dget rpid [] cd2 := by
    unfold dget
    rw [h]
  rw [hg]

theorem planEncounter_chargeDict_congr (rm : Str → Str → Bool)
    (filt : List (Str × Str)) (prpDict cd1 cd2 td : List (Str × List (Str × Attrs)))
    (pid : Str) (h : ∀ q ∈ dget pid [] prpDict, dlookup q.1 cd1 = dlookup q.1 cd2) :
    planEncounter rm filt prpDict cd1 td pid = planEncounter rm filt prpDict cd2 td pid := by
  unfold planEncounter
  exact mapM_congr (fun q hq => buildPlan_chargeDict_congr rm filt cd1 cd2 td q.1 q.2 (h q hq))

theorem buildProduct_chargeDict_congr (rm : Str → Str → Bool)
    (filt : List (Str × Str)) (prpDict cd1 cd2 td : List (Str × List (Str × Attrs)))
    (pid : Str) (pa : Attrs)
    (h : ∀ q ∈ dget pid [] prpDict, dlookup q.1 cd1 = dlookup q.1 cd2) :
    buildProduct rm filt prpDict cd1 td pid pa = buildProduct rm filt prpDict cd2 td pid pa := by
  unfold buildProduct
  rw [planEncounter_chargeDict_congr rm filt prpDict cd1 cd2 td pid h]

theorem buildProduct_prpDict_congr (rm : Str → Str → Bool)
    (filt : List (Str × Str)) (prp1 prp2 cd td : List (Str × List (Str × Attrs)))
    (pid : Str) (pa : Attrs) (h : dlookup pid prp1 = dlookup pid prp2) :
    buildProduct rm filt prp1 cd td pid pa = buildProduct rm filt prp2 cd td pid pa := by
  unfold buildProduct planEncounter
  have hg : dget pid [] prp1 = dget pid [] prp2 := by
    unfold dget
    rw [h]
  rw [hg]

theorem buildCharge_tierDict_congr (td1 td2 : List (Str × List (Str × Attrs)))
    (rpc : Attrs)
    (h : ∀ cid, dlookup idKey rpc = some cid → dlookup cid td1 = dlookup cid td2) :
    buildCharge td1 rpc = buildCharge td2 rpc := by
  unfold buildCharge
  cases hc : dlookup idKey rpc with
  | none => rfl
  | some cid =>
    have hg : dget cid [] td1 = dget cid [] td2 := by
      unfold dget
      rw [h cid hc]
    simp only [need, ok_bind]
    rw [hg]

theorem buildPlan_tierDict_congr (rm : Str → Str → Bool) (filt : List (Str × Str))
    (cd td1 td2 : List (Str × List (Str × Attrs))) (rpid : Str) (rp : Attrs)
    (h : ∀ q ∈ dget rpid [] cd, buildCharge td1 q.2 = buildCharge td2 q.2) :
    buildPlan rm filt cd td1 rpid rp = buildPlan rm filt cd td2 rpid rp := by
  unfold buildPlan
  have hm : (dget rpid [] cd).mapM (fun q => buildCharge td1 q.2)
      = (dget rpid [] cd).mapM (fun q => buildCharge td2 q.2) := mapM_congr h
  rw [hm]

theorem planEncounter_tierDict_congr (rm : Str → Str → Bool)
    (filt : List (Str × Str)) (prpDict cd td1 td2 : List (Str × List (Str × Attrs)))
    (pid : Str)
    (h : ∀ q ∈ dget pid [] prpDict, ∀ w ∈ dget q.1 [] cd,
      buildCharge td1 w.2 = buildCharge td2 w.2) :
    planEncounter rm filt prpDict cd td1 pid = planEncounter rm filt prpDict cd td2 pid := by
  unfold planEncounter
  exact mapM_congr (fun q hq =>
    buildPlan_tierDict_congr rm filt cd td1 td2 q.1 q.2 (fun w hw => h q hq w hw))

theorem buildProduct_tierDict_congr (rm : Str → Str → Bool)
    (filt : List (Str × Str)) (prpDict cd td1 td2 : List (Str × List (Str × Attrs)))
    (pid : Str) (pa : Attrs)
    (h : ∀ q ∈ dget pid [] prpDict, ∀ w ∈ dget q.1 [] cd,
      buildCharge td1 w.2 = buildCharge td2 w.2) :
    buildProduct rm filt prpDict cd td1 pid pa = buildProduct rm filt prpDict cd td2 pid pa := by
  unfold buildProduct
  rw [planEncounter_tierDict_congr rm filt prpDict cd td1 td2 pid h]

/-!
### Orphan removal at the level of `match_product_rate_plans`
-/

theorem match_skip_orphan_charge (rm : Str → Str → Bool) (filt : List (Str × Str))
    (products plans tiers chs1 chs2 : List Attrs) (c : Attrs) (pid cid : Str)
    (hp : dlookup rawProductRatePlanIdKey c = some pid)
    (hid : dlookup rawIdKey c = some cid)
    (horph : ∀ pr ∈ plans, ¬ dlookup rawIdKey pr = some pid) :
    match_product_rate_plans rm filt products plans (chs1 ++ c :: chs2) tiers =
      match_product_rate_plans rm filt products plans (chs1 ++ chs2) tiers := by
  unfold match_product_rate_plans
  cases hpd : groupProducts products with
  | error e => cases e; rfl
  | ok productDict =>
    rw [ok_bind, ok_bind]
    cases hprp : groupByParent rawProductIdKey plans with
    | error e => cases e; rfl
    | ok prpDict =>
      rw [ok_bind, ok_bind]
      have hagree := groupByParent_skip rawProductRatePlanIdKey c pid cid hp hid chs1 chs2
      cases hcd1 : groupByParent rawProductRatePlanIdKey (chs1 ++ c :: chs2) with
      | error e =>
        cases e
        cases hcd2 : groupByParent rawProductRatePlanIdKey (chs1 ++ chs2) with
        | error e2 => cases e2; rfl
        | ok cd2 =>
          rw [hcd1, hcd2] at hagree
          exact False.elim hagree
      | ok cd1 =>
        cases hcd2 : groupByParent rawProductRatePlanIdKey (chs1 ++ chs2) with
        | error e2 =>
          rw [hcd1, hcd2] at hagree
          exact False.elim hagree
        | ok cd2 =>
          rw [hcd1, hcd2] at hagree
          rw [ok_bind, ok_bind]
          cases htd : groupByParent rawProductRatePlanChargeIdKey tiers with
          | error e => cases e; rfl
          | ok td =>
            rw [ok_bind, ok_bind]
            apply mapM_congr
            intro p hpmem
            apply buildProduct_chargeDict_congr
            intro q hq
            have hinner : ∃ inner, dlookup p.1 prpDict = some inner ∧ q ∈ inner := by
              revert hq
              unfold dget
              cases hl : dlookup p.1 prpDict with
              | none => intro hq; simp at hq
              | some inner => intro hq; exact ⟨inner, rfl, hq⟩
            rcases hinner with ⟨inner, hl, hqi⟩
            rcases groupByParent_provenance rawProductIdKey plans prpDict hprp
              (p.1, inner) (dlookup_mem _ _ _ hl) q hqi with ⟨r, hr, _, hrid, _⟩
            have hne : q.1 ≠ pid := fun hh => horph r hr (hh ▸ hrid)
            exact hagree q.1 hne

theorem match_skip_orphan_plan (rm : Str → Str → Bool) (filt : List (Str × Str))
    (products charges tiers pl1 pl2 : List Attrs) (c : Attrs) (pid rid : Str)
    (hp : dlookup rawProductIdKey c = some pid)
    (hid : dlookup rawIdKey c = some rid)
    (horph : ∀ pr ∈ products, ¬ dlookup rawIdKey pr = some pid) :
    match_product_rate_plans rm filt products (pl1 ++ c :: pl2) charges tiers =
      match_product_rate_plans rm filt products (pl1 ++ pl2) charges tiers := by
  unfold match_product_rate_plans
  cases hpd : groupProducts products with
  | error e => cases e; rfl
  | ok productDict =>
    rw [ok_bind, ok_bind]
    have hagree := groupByParent_skip rawProductIdKey c pid rid hp hid pl1 pl2
    cases hprp1 : groupByParent rawProductIdKey (pl1 ++ c :: pl2) with
    | error e =>
      cases e
      cases hprp2 : groupByParent rawProductIdKey (pl1 ++ pl2) with
      | error e2 => cases e2; rfl
      | ok prp2 =>
        rw [hprp1, hprp2] at hagree
        exact False.elim hagree
    | ok prp1 =>
      cases hprp2 : groupByParent rawProductIdKey (pl1 ++ pl2) with
      | error e2 =>
        rw [hprp1, hprp2] at hagree
        exact False.elim hagree
      | ok prp2 =>
        rw [hprp1, hprp2] at hagree
        rw [ok_bind, ok_bind]
        cases hcd : groupByParent rawProductRatePlanIdKey charges with
        | error e => cases e; rfl
        | ok cd =>
          rw [ok_bind, ok_bind]
          cases htd : groupByParent rawProductRatePlanChargeIdKey tiers with
          | error e => cases e; rfl
          | ok td =>
            rw [ok_bind, ok_bind]
            apply mapM_congr
            intro p hpmem
            apply buildProduct_prpDict_congr
            rcases groupProducts_provenance products productDict hpd p hpmem with
              ⟨r, hr, hrid, _⟩
            exact hagree p.1 (fun hh => horph r hr (hh ▸ hrid))

theorem match_skip_orphan_tier (rm : Str → Str → Bool) (filt : List (Str × Str))
    (products plans charges ts1 ts2 : List Attrs) (c : Attrs) (pid tid : Str)
    (hp : dlookup rawProductRatePlanChargeIdKey c = some pid)
    (hid : dlookup rawIdKey c = some tid)
    (horph : ∀ ch ∈ charges, ¬ dlookup idKey (normalizeAttrs ch) = some pid) :
    match_product_rate_plans rm filt products plans charges (ts1 ++ c :: ts2) =
      match_product_rate_plans rm filt products plans charges (ts1 ++ ts2) := by
  unfold match_product_rate_plans
  cases hpd : groupProducts products with
  | error e => cases e; rfl
  | ok productDict =>
    rw [ok_bind, ok_bind]
    cases hprp : groupByParent rawProductIdKey plans with
    | error e => cases e; rfl
    | ok prpDict =>
      rw [ok_bind, ok_bind]
      cases hcd : groupByParent rawProductRatePlanIdKey charges with
      | error e => cases e; rfl
      | ok cd =>
        rw [ok_bind, ok_bind]
        have hagree := groupByParent_skip rawProductRatePlanChargeIdKey c pid tid hp hid ts1 ts2
        cases htd1 : groupByParent rawProductRatePlanChargeIdKey (ts1 ++ c :: ts2) with
        | error e =>
          cases e
          cases htd2 : groupByParent rawProductRatePlanChargeIdKey (ts1 ++ ts2) with
          | error e2 => cases e2; rfl
          | ok td2 =>
            rw [htd1, htd2] at hagree
            exact False.elim hagree
        | ok td1 =>
          cases htd2 : groupByParent rawProductRatePlanChargeIdKey (ts1 ++ ts2) with
          | error e2 =>
            rw [htd1, htd2] at hagree
            exact False.elim hagree
          | ok td2 =>
            rw [htd1, htd2] at hagree
            rw [ok_bind, ok_bind]
            apply mapM_congr
            intro p hpmem
            apply buildProduct_tierDict_congr
            intro q hq w hw
            apply buildCharge_tierDict_congr
            intro cid hcid
            have hinner : ∃ inner, dlookup q.1 cd = some inner ∧ w ∈ inner := by
              revert hw
              unfold dget
              cases hl : dlookup q.1 cd with
              | none => intro hw; simp at hw
              | some inner => intro hw; exact ⟨inner, rfl, hw⟩
            rcases hinner with ⟨inner, hl, hwi⟩
            rcases groupByParent_provenance rawProductRatePlanIdKey charges cd hcd
              (q.1, inner) (dlookup_mem _ _ _ hl) w hwi with ⟨r, hr, _, _, hnorm⟩
            have hne : cid ≠ pid := by
              intro hh
              subst hh
              apply horph r hr
              rw [hnorm]
              exact hcid
            exact hagree cid hne

/-- Claim C5: a child record whose parent id matches no parent in its
own batch is silently excluded from the joined output and never causes
an error.  Formally, removing such an orphan from its batch leaves the
entire result of `match_product_rate_plans` unchanged (the same value,
or the same failure), for each of the three child kinds: a charge whose
`ProductRatePlanId` is no plan's `Id`, a rate plan whose `ProductId` is
no product's `Id`, and a tier whose `ProductRatePlanChargeId` is no
charge's id. -/
theorem C5_orphans_excluded :
    (∀ (rm : Str → Str → Bool) (filt : List (Str × Str))
        (products plans tiers chs1 chs2 : List Attrs) (c : Attrs) (pid cid : Str),
      dlookup rawProductRatePlanIdKey c = some pid →
      dlookup rawIdKey c = some cid →
      (∀ pr ∈ plans, ¬ dlookup rawIdKey pr = some pid) →
      match_product_rate_plans rm filt products plans (chs1 ++ c :: chs2) tiers =
        match_product_rate_plans rm filt products plans (chs1 ++ chs2) tiers) ∧
    (∀ (rm : Str → Str → Bool) (filt : List (Str × Str))
        (products charges tiers pl1 pl2 : List Attrs) (c : Attrs) (pid rid : Str),
      dlookup rawProductIdKey c = some pid →
      dlookup rawIdKey c = some rid →
      (∀ pr ∈ products, ¬ dlookup rawIdKey pr = some pid) →
      match_product_rate_plans rm filt products (pl1 ++ c :: pl2) charges tiers =
        match_product_rate_plans rm filt products (pl1 ++ pl2) charges tiers) ∧
    (∀ (rm : Str → Str → Bool) (filt : List (Str × Str))
        (products plans charges ts1 ts2 : List Attrs) (c : Attrs) (pid tid : Str),
      dlookup rawProductRatePlanChargeIdKey c = some pid →
      dlookup rawIdKey c = some tid →
      (∀ ch ∈ charges, ¬ dlookup idKey (normalizeAttrs ch) = some pid) →
      match_product_rate_plans rm filt products plans charges (ts1 ++ c :: ts2) =
        match_product_rate_plans rm filt products plans charges (ts1 ++ ts2)) :=
  ⟨fun rm filt products plans tiers chs1 chs2 c pid cid hp hid horph =>
      match_skip_orphan_charge rm filt products plans tiers chs1 chs2 c pid cid hp hid horph,
    fun rm filt products charges tiers pl1 pl2 c pid rid hp hid horph =>
      match_skip_orphan_plan rm filt products charges tiers pl1 pl2 c pid rid hp hid horph,
    fun rm filt products plans charges ts1 ts2 c pid tid hp hid horph =>
      match_skip_orphan_tier rm filt products plans charges ts1 ts2 c pid tid hp hid horph⟩

/-- An orphan charge for the C5 witness: its `ProductRatePlanId` `ZZ`
is no plan's `Id` in the batch `[c3PlanA]`. -/
def c5OrphanCharge : Attrs := [(codes "Id", codes "oc"),
  (codes "ProductRatePlanId", codes "ZZ"), (codes "ChargeModel", codes "FlatFee")]

/-- A well-attached charge kept in the batch next to the orphan. -/
def c5GoodCharge : Attrs := [(codes "Id", codes "gc"),
  (codes "ProductRatePlanId", codes "A"), (codes "ChargeModel", codes "FlatFee")]

/-- Witness for C5: dropping the orphan charge from the batch leaves the
matching result unchanged, at a concrete input where the computation
succeeds on both sides. -/
theorem C5_witness :
    match_product_rate_plans rmatchLiteral [] [c3Prod] [c3PlanA]
        ([c5GoodCharge] ++ c5OrphanCharge :: []) [] =
      match_product_rate_plans rmatchLiteral [] [c3Prod] [c3PlanA]
        ([c5GoodCharge] ++ []) [] :=
  C5_orphans_excluded.1 rmatchLiteral [] [c3Prod] [c3PlanA] [] [c5GoodCharge] []
    c5OrphanCharge (codes "ZZ") (codes "oc") (by decide) (by decide) (by decide)
